import Mathlib

/-!
Verification development for the `new_watch_system` repository's
search-and-belief battle engine and its I/O surfaces.

Numeric values that the sources hold as Python/JS floats are embedded as
exact rationals (`ℚ`); machine-integer counters are embedded as `ℕ`.
Components whose Python source files (`predictor/core/*.py`,
`src/domain/services/*.py`) are not part of the repository snapshot are
modelled from the specification and from the configuration tables and
code snippets in the repository's own architecture documents
(`CURRENT_STATUS.md`, the architecture spec and the operation manual);
each such definition carries a doc comment saying so.
-/

/-- The three risk postures of `RiskAwareSolver` (spec §3 RiskPosture). -/
inductive RiskPosture where
  | secure
  | neutral
  | gamble
deriving DecidableEq

/-- Modelled from the spec: `RiskAwareConfig` of
`predictor/core/risk_aware_solver.py` (the file itself is absent from the
snapshot; the operation manual shows the dataclass with
`lambda_secure = 0.5`, `kappa_gamble = 0.3`, `advantage_threshold = 0.55`,
`disadvantage_threshold = 0.45`). -/
structure RiskAwareConfig where
  lambda_secure : ℚ
  kappa_gamble : ℚ
  advantage_threshold : ℚ
  disadvantage_threshold : ℚ

/-- The default `RiskAwareConfig` values from the manual's dataclass. -/
def defaultRiskAwareConfig : RiskAwareConfig :=
  ⟨1 / 2, 3 / 10, 55 / 100, 45 / 100⟩

/-- Modelled from the spec: the posture determination step of
`RiskAwareSolver.select` (spec §4.5): win probability at or above the
advantage (secure) threshold gives `secure`, at or below the
disadvantage (gamble) threshold gives `gamble`, otherwise `neutral`. -/
def riskPosture (cfg : RiskAwareConfig) (win_probability : ℚ) : RiskPosture :=
  if cfg.advantage_threshold ≤ win_probability then RiskPosture.secure
  else if win_probability ≤ cfg.disadvantage_threshold then RiskPosture.gamble
  else RiskPosture.neutral

/-- `CandidateConfig` of `predictor/core/candidate_generator.py`, as
documented in the repository's architecture spec and `CURRENT_STATUS.md`
(the Python file itself is absent from the snapshot). -/
structure CandidateConfig where
  top_k : ℕ
  progressive_widening : Bool
  base_k : ℕ
  widening_interval : ℕ
  widening_step : ℕ
  max_k : ℕ

/-- The documented default `CandidateConfig`:
`top_k = 25`, `progressive_widening = True`, `base_k = 15`,
`widening_interval = 5`, `widening_step = 5`, `max_k = 100`. -/
def defaultCandidateConfig : CandidateConfig :=
  ⟨25, true, 15, 5, 5, 100⟩

/-- Modelled from the spec: the progressive-widening cap of
`CandidateGenerator`. `CURRENT_STATUS.md` gives the formula for the n-th
call verbatim: `top_k = min(base_k + (n // interval) * step, max_k)`;
with widening disabled the static `top_k` is used. -/
def effectiveTopK (cfg : CandidateConfig) (call_count : ℕ) : ℕ :=
  if cfg.progressive_widening then
    min (cfg.base_k + call_count / cfg.widening_interval * cfg.widening_step) cfg.max_k
  else
    cfg.top_k

/-- C1: for every `win_probability`, the posture derived by
`RiskAwareSolver.select` under the documented thresholds is `secure`
exactly when the probability is at or above `0.55`, `gamble` exactly when
it is at or below `0.45`, and `neutral` otherwise; in particular `0.70`
gives `secure`, `0.30` gives `gamble` and `0.50` gives `neutral`. -/
theorem riskPosture_threshold_determinism (wp : ℚ) :
    (riskPosture defaultRiskAwareConfig wp = RiskPosture.secure ↔ 55 / 100 ≤ wp) ∧
    (riskPosture defaultRiskAwareConfig wp = RiskPosture.gamble ↔ wp ≤ 45 / 100) ∧
    (riskPosture defaultRiskAwareConfig wp = RiskPosture.neutral ↔
      (45 / 100 < wp ∧ wp < 55 / 100)) ∧
    riskPosture defaultRiskAwareConfig (70 / 100) = RiskPosture.secure ∧
    riskPosture defaultRiskAwareConfig (30 / 100) = RiskPosture.gamble ∧
    riskPosture defaultRiskAwareConfig (50 / 100) = RiskPosture.neutral := by
  have hadv : defaultRiskAwareConfig.advantage_threshold = 55 / 100 := rfl
  have hdis : defaultRiskAwareConfig.disadvantage_threshold = 45 / 100 := rfl
  have e1 : riskPosture defaultRiskAwareConfig (70 / 100) = RiskPosture.secure := by
    simp only [riskPosture, hadv, hdis]
    rw [if_pos (by norm_num)]
  have e2 : riskPosture defaultRiskAwareConfig (30 / 100) = RiskPosture.gamble := by
    simp only [riskPosture, hadv, hdis]
    rw [if_neg (by norm_num), if_pos (by norm_num)]
  have e3 : riskPosture defaultRiskAwareConfig (50 / 100) = RiskPosture.neutral := by
    simp only [riskPosture, hadv, hdis]
    rw [if_neg (by norm_num), if_neg (by norm_num)]
  by_cases h1 : (55 / 100 : ℚ) ≤ wp
  · have hp : riskPosture defaultRiskAwareConfig wp = RiskPosture.secure := by
      simp only [riskPosture, hadv, hdis]
      rw [if_pos h1]
    refine ⟨?_, ?_, ?_, e1, e2, e3⟩
    · simp [hp, h1]
    · simp only [hp]
      constructor
      · intro h
        exact absurd h (by simp)
      · intro h
        exact absurd h (by linarith)
    · simp only [hp]
      constructor
      · intro h
        exact absurd h (by simp)
      · rintro ⟨ha, hb⟩
        exact absurd hb (by linarith)
  · by_cases h2 : wp ≤ 45 / 100
    · have hp : riskPosture defaultRiskAwareConfig wp = RiskPosture.gamble := by
        simp only [riskPosture, hadv, hdis]
        rw [if_neg h1, if_pos h2]
      refine ⟨?_, ?_, ?_, e1, e2, e3⟩
      · simp only [hp]
        constructor
        · intro h
          exact absurd h (by simp)
        · intro h
          exact absurd h h1
      · simp [hp, h2]
      · simp only [hp]
        constructor
        · intro h
          exact absurd h (by simp)
        · rintro ⟨ha, hb⟩
          exact absurd ha (by linarith)
    · have hp : riskPosture defaultRiskAwareConfig wp = RiskPosture.neutral := by
        simp only [riskPosture, hadv, hdis]
        rw [if_neg h1, if_neg h2]
      push_neg at h1 h2
      refine ⟨?_, ?_, ?_, e1, e2, e3⟩
      · simp only [hp]
        constructor
        · intro h
          exact absurd h (by simp)
        · intro h
          exact absurd h (by linarith)
      · simp only [hp]
        constructor
        · intro h
          exact absurd h (by simp)
        · intro h
          exact absurd h (by linarith)
      · simp only [hp]
        exact iff_of_true trivial ⟨h2, h1⟩

/-- C2: under the documented configuration the candidate cap is
non-decreasing in the call count, bounded by `max_k = 100`, starts at
`base_k = 15`, and advances by `widening_step = 5` (capped at `max_k`)
each `widening_interval = 5` calls; the architecture spec's example table
values (call 1 ↦ 15, 10 ↦ 25, 20 ↦ 35, 85 ↦ 100) hold. -/
theorem effectiveTopK_progressive_widening :
    (∀ m n, m ≤ n →
      effectiveTopK defaultCandidateConfig m ≤ effectiveTopK defaultCandidateConfig n) ∧
    (∀ n, effectiveTopK defaultCandidateConfig n ≤ defaultCandidateConfig.max_k) ∧
    effectiveTopK defaultCandidateConfig 0 = defaultCandidateConfig.base_k ∧
    (∀ n, effectiveTopK defaultCandidateConfig (n + 5) =
      min (effectiveTopK defaultCandidateConfig n + 5) 100) ∧
    effectiveTopK defaultCandidateConfig 1 = 15 ∧
    effectiveTopK defaultCandidateConfig 10 = 25 ∧
    effectiveTopK defaultCandidateConfig 20 = 35 ∧
    effectiveTopK defaultCandidateConfig 85 = 100 := by
  refine ⟨?_, ?_, by decide, ?_, by decide, by decide, by decide, by decide⟩
  · intro m n hmn
    simp only [effectiveTopK, defaultCandidateConfig]
    norm_num
    omega
  · intro n
    simp only [effectiveTopK, defaultCandidateConfig]
    norm_num
  · intro n
    simp only [effectiveTopK, defaultCandidateConfig]
    norm_num
    omega

/-- Witness for C2's monotonicity hypothesis at the concrete pair 3 ≤ 18. -/
theorem effectiveTopK_progressive_widening_witness :
    effectiveTopK defaultCandidateConfig 3 ≤ effectiveTopK defaultCandidateConfig 18 :=
  effectiveTopK_progressive_widening.1 3 18 (by decide)

/-- A single transposition-table lookup situation inside
`GameSolver._estimate_utility`: the current turn number, the signatures
of the two joint actions being paired, and the signature of the
determinization hypothesis under which the solver is currently running. -/
structure LookupQuery where
  turn : ℕ
  self_sig : ℕ
  opp_sig : ℕ
  hyp_sig : ℕ
deriving DecidableEq

/-- A transposition-table key. -/
abbrev TTKey : Type := ℕ × ℕ × ℕ

/-- Modelled from the spec: the cache key built by
`GameSolver._estimate_utility`. The architecture documents show it
verbatim (`cache_key = (battle.turn, self_key, opp_key)`; commented as
`(turn, self_action_key, opp_action_key)`): the determinization
hypothesis signature is not part of the key. -/
def transpositionKey (q : LookupQuery) : TTKey :=
  (q.turn, q.self_sig, q.opp_sig)

/-- The mutable solver fields relevant to the transposition table
(`_transposition_table`, `_cache_hits`, `_cache_misses`), plus a count of
how many times the utility of a pair was actually computed. -/
structure SolverCacheState where
  table : List (TTKey × ℚ)
  cache_hits : ℕ
  cache_misses : ℕ
  utility_computations : ℕ
deriving DecidableEq

/-- Modelled from the spec: the caching discipline of
`GameSolver._estimate_utility` — look the key up; on a hit return the
cached value and bump `_cache_hits`; on a miss compute the utility
(the freshly computed value is the `computed` argument), store it under
the key, and bump `_cache_misses`. -/
def estimateUtility (computed : ℚ) (s : SolverCacheState) (q : LookupQuery) :
    ℚ × SolverCacheState :=
  match s.table.lookup (transpositionKey q) with
  | some v => (v, ⟨s.table, s.cache_hits + 1, s.cache_misses, s.utility_computations⟩)
  | none =>
      (computed,
        ⟨(transpositionKey q, computed) :: s.table, s.cache_hits,
          s.cache_misses + 1, s.utility_computations + 1⟩)

/-- C3 counterexample: two lookups that differ only in the
determinization hypothesis signature produce the same cache key, so they
resolve to the same transposition-table entry — refuting the claim that
the hypothesis signature is part of the key. -/
theorem transpositionKey_ignores_hypothesis :
    transpositionKey ⟨3, 7, 9, 0⟩ = transpositionKey ⟨3, 7, 9, 1⟩ ∧
    (⟨3, 7, 9, 0⟩ : LookupQuery) ≠ ⟨3, 7, 9, 1⟩ := by
  constructor
  · rfl
  · intro h
    exact absurd (congrArg LookupQuery.hyp_sig h) (by decide)

/-- C3 (amended): every transposition-table entry is keyed by the
three-tuple (turn, own joint-action signature, opponent joint-action
signature); two lookups resolve to the same entry exactly when those
three components agree, irrespective of the determinization hypothesis
signature. -/
theorem transpositionKey_three_tuple (q r : LookupQuery) :
    transpositionKey q = transpositionKey r ↔
      q.turn = r.turn ∧ q.self_sig = r.self_sig ∧ q.opp_sig = r.opp_sig := by
  simp [transpositionKey, Prod.ext_iff]

/-- C6: querying the transposition table twice with the same
(turn, self-signature, opponent-signature, hypothesis-signature) key
within one search call returns the same utility both times — even if a
recomputation would have produced a different value (`computed2`) — the
second query performs no utility computation, and the cache-hit counter
is incremented by the second query. -/
theorem estimateUtility_second_query_cached (computed computed2 : ℚ)
    (s : SolverCacheState) (q : LookupQuery) :
    (estimateUtility computed2 (estimateUtility computed s q).2 q).1 =
      (estimateUtility computed s q).1 ∧
    (estimateUtility computed2 (estimateUtility computed s q).2 q).2.utility_computations =
      (estimateUtility computed s q).2.utility_computations ∧
    (estimateUtility computed2 (estimateUtility computed s q).2 q).2.cache_hits =
      (estimateUtility computed s q).2.cache_hits + 1 := by
  rcases h : s.table.lookup (transpositionKey q) with _ | v
  · simp [estimateUtility, h, List.lookup]
  · simp [estimateUtility, h]

/-- Sum of a constant-mapped list. -/
theorem listSum_map_const {α : Type} (l : List α) (c : ℚ) :
    (l.map (fun _ => c)).sum = (l.length : ℚ) * c := by
  induction l with
  | nil => simp
  | cons a t ih =>
      simp only [List.map_cons, List.sum_cons, ih, List.length_cons]
      push_cast
      ring

/-- Sum of a list divided elementwise by a constant. -/
theorem listSum_map_div (l : List ℚ) (c : ℚ) :
    (l.map (fun x => x / c)).sum = l.sum / c := by
  induction l with
  | nil => simp
  | cons a t ih =>
      simp only [List.map_cons, List.sum_cons, ih]
      ring

/-- Modelled from the spec: the Bayesian reweighting step of
`BeliefState`/`StatParticleFilter.update` — every hypothesis (or
particle) weight is multiplied by the likelihood of the observation
under that hypothesis. -/
def reweight {α : Type} (hyps : List (α × ℚ)) (likelihood : α → ℚ) : List (α × ℚ) :=
  hyps.map (fun p => (p.1, p.2 * likelihood p.1))

/-- The total weight of a hypothesis/particle set. -/
def totalWeight {α : Type} (hyps : List (α × ℚ)) : ℚ :=
  (hyps.map Prod.snd).sum

/-- Modelled from the spec: one `update(observation)` call of
`BeliefState` (`src/domain/services/belief_state.py`, absent from the
snapshot): reweight every hypothesis by its likelihood and renormalize;
when the total reweighted mass is zero (the degenerate-belief failure
mode) fall back to a uniform distribution instead of dividing by zero. -/
def beliefUpdate {α : Type} (hyps : List (α × ℚ)) (likelihood : α → ℚ) :
    List (α × ℚ) :=
  if totalWeight (reweight hyps likelihood) = 0 then
    hyps.map (fun p => (p.1, 1 / (hyps.length : ℚ)))
  else
    (reweight hyps likelihood).map
      (fun p => (p.1, p.2 / totalWeight (reweight hyps likelihood)))

/-- Modelled from the spec: one `update` call of `StatParticleFilter`
(`src/domain/services/stat_particle_filter.py`, absent from the
snapshot): Bayesian reweighting with renormalization as in
`beliefUpdate`, followed by the degeneracy check — when the effective
sample size (inverse of the sum of squared normalized weights) drops
below half the particle count, resample (the draw is the externally
injected `draw` function, proportional-to-weight sampling being the
collaborator's randomness) and reset all weights to uniform. -/
def statParticleUpdate {α : Type} (parts : List (α × ℚ)) (likelihood : α → ℚ)
    (draw : ℕ → α) : List (α × ℚ) :=
  let updated := beliefUpdate parts likelihood
  let ess := 1 / ((updated.map Prod.snd).map (fun w => w * w)).sum
  if ess < (parts.length : ℚ) / 2 then
    (List.range parts.length).map (fun i => (draw i, 1 / (parts.length : ℚ)))
  else
    updated

/-- C4: after every `update()` call of `BeliefState` or
`StatParticleFilter` on a non-empty hypothesis/particle set, the weights
sum to exactly 1 (the rational embedding makes the floating-point
tolerance exact). -/
theorem beliefUpdate_weights_sum_one {α : Type} (hyps : List (α × ℚ))
    (likelihood : α → ℚ) (draw : ℕ → α) (hne : hyps ≠ []) :
    totalWeight (beliefUpdate hyps likelihood) = 1 ∧
    totalWeight (statParticleUpdate hyps likelihood draw) = 1 := by
  have hlen : (hyps.length : ℚ) ≠ 0 := by
    exact_mod_cast List.length_pos.mpr hne |>.ne'
  have hpair : ∀ {β : Type} (l : List β) (f : β → α) (g : β → ℚ),
      totalWeight (l.map (fun b => (f b, g b))) = (l.map g).sum := by
    intro β l f g
    induction l with
    | nil => rfl
    | cons a t ih =>
        simp only [List.map_cons, totalWeight, List.sum_cons] at ih ⊢
        rw [ih]
  have hmain : totalWeight (beliefUpdate hyps likelihood) = 1 := by
    by_cases h0 : totalWeight (reweight hyps likelihood) = 0
    · rw [beliefUpdate, if_pos h0,
        hpair hyps Prod.fst (fun _ => 1 / (hyps.length : ℚ)), listSum_map_const]
      field_simp
    · rw [beliefUpdate, if_neg h0,
        hpair (reweight hyps likelihood) Prod.fst
          (fun p => p.2 / totalWeight (reweight hyps likelihood))]
      have hcomp : (reweight hyps likelihood).map
          (fun p : α × ℚ => p.2 / totalWeight (reweight hyps likelihood)) =
          ((reweight hyps likelihood).map Prod.snd).map
            (fun x => x / totalWeight (reweight hyps likelihood)) := by
        rw [List.map_map]
        rfl
      rw [hcomp, listSum_map_div]
      exact div_self h0
  refine ⟨hmain, ?_⟩
  rw [statParticleUpdate]
  by_cases hess : 1 / (((beliefUpdate hyps likelihood).map Prod.snd).map
      (fun w => w * w)).sum < (hyps.length : ℚ) / 2
  · rw [if_pos hess,
      hpair (List.range hyps.length) draw (fun _ => 1 / (hyps.length : ℚ)),
      listSum_map_const, List.length_range]
    field_simp
  · rw [if_neg hess]
    exact hmain

/-- Witness for C4 at a concrete two-particle set. -/
theorem beliefUpdate_weights_sum_one_witness :
    totalWeight (beliefUpdate [((0 : ℕ), (1 : ℚ) / 2), (1, 1 / 2)] (fun _ => 1)) = 1 ∧
    totalWeight
      (statParticleUpdate [((0 : ℕ), (1 : ℚ) / 2), (1, 1 / 2)] (fun _ => 1) (fun _ => 0)) =
      1 :=
  beliefUpdate_weights_sum_one [((0 : ℕ), (1 : ℚ) / 2), (1, 1 / 2)] (fun _ => 1)
    (fun _ => 0) (by simp)

/-- One legal atomic action for a single active slot (spec §3
CandidateAction): a tagged variant of use-move, switch, or
terastallize-then-use-move, plus the synthesized struggle/forced-pass
action used when a slot has no legal action left. -/
inductive CandidateAction where
  | useMove (move_id : ℕ) (target : ℕ)
  | switchTo (reserve : ℕ)
  | teraMove (move_id : ℕ) (target : ℕ)
  | struggle
deriving DecidableEq

/-- A joint action: one `CandidateAction` per active slot on one side. -/
abbrev JointAction : Type := List CandidateAction

/-- Modelled from the spec: `CandidateActionGenerator.generate`
(`predictor/core/candidate_generator.py`, absent from the snapshot).
It receives the legality-filtered joint actions with their heuristic
scores, orders them by descending score, and returns the first
`effectiveTopK` of them; when legality filtering left zero legal
actions, it emits a single struggle/forced-pass joint action instead of
an empty list. -/
def generateCandidates (cfg : CandidateConfig) (call_count : ℕ)
    (scored_legal : List (JointAction × ℚ)) : List JointAction :=
  if scored_legal.isEmpty then
    [[CandidateAction.struggle]]
  else
    ((List.insertionSort (fun a b : JointAction × ℚ => b.2 ≤ a.2) scored_legal).map
      Prod.fst).take (effectiveTopK cfg call_count)

/-- C5: for every call count and every legality-filtered scored action
list (the zero-legal-action trapped/no-PP case included), the generator
returns at least one joint action under any configuration whose caps are
at least 1 (the documented configuration has `top_k = 25`, `base_k = 15`,
`max_k = 100`); in the zero-legal-action case it returns exactly the
single synthesized struggle action. -/
theorem generateCandidates_nonempty (cfg : CandidateConfig) (call_count : ℕ)
    (scored_legal : List (JointAction × ℚ)) (htop : 1 ≤ cfg.top_k)
    (hbase : 1 ≤ cfg.base_k) (hmax : 1 ≤ cfg.max_k) :
    generateCandidates cfg call_count scored_legal ≠ [] ∧
    generateCandidates cfg call_count [] = [[CandidateAction.struggle]] := by
  constructor
  · rw [generateCandidates]
    rcases hs : scored_legal.isEmpty with _ | _
    · rw [if_neg (by simp [hs])]
      have hk : 1 ≤ effectiveTopK cfg call_count := by
        rw [effectiveTopK]
        rcases hw : cfg.progressive_widening with _ | _
        · rw [if_neg (by simp [hw])]
          exact htop
        · rw [if_pos (by simp [hw])]
          exact le_min (le_trans hbase (Nat.le_add_right _ _)) hmax
      have hlen : scored_legal.length ≠ 0 := by
        intro h
        rw [List.isEmpty_iff_length_eq_zero.mpr h] at hs
        cases hs
      intro hnil
      have := congrArg List.length hnil
      rw [List.length_take, List.length_map,
        (List.perm_insertionSort (fun a b : JointAction × ℚ => b.2 ≤ a.2)
          scored_legal).length_eq] at this
      simp only [List.length_nil] at this
      omega
    · rw [if_pos (by simp [hs])]
      intro h
      cases h
  · rfl

/-- Witness for C5 at the documented configuration, call count 0, and an
empty legal-action list. -/
theorem generateCandidates_nonempty_witness :
    generateCandidates defaultCandidateConfig 0 [] ≠ [] ∧
    generateCandidates defaultCandidateConfig 0 [] = [[CandidateAction.struggle]] :=
  generateCandidates_nonempty defaultCandidateConfig 0 [] (by decide) (by decide)
    (by decide)

/-- The input accepted by `parseHpValue` in the web client: `undefined`
or `null`, a string (carrying the numeric group of the `(-?\d+(\.\d+)?)%`
regular-expression match when one exists), the float `NaN`, or a plain
number. -/
inductive HpValueInput where
  | nullish
  | strVal (percentMatch : Option ℚ)
  | nanVal
  | numVal (x : ℚ)
deriving DecidableEq

/-- The record `parseHpValue` returns: `hpText` keeps the raw string
(represented here by its parsed percent group), `hpRaw` the raw number,
`hpPercent` the clamped fraction. -/
structure HpInfo where
  hpText : Option (Option ℚ)
  hpRaw : Option ℚ
  hpPercent : Option ℚ
deriving DecidableEq

/-- The clamp `Math.min(Math.max(x, 0), 1)` used by `parseHpValue`. -/
def clamp01 (x : ℚ) : ℚ := min (max x 0) 1

/-- `parseHpValue` from the web client source: `undefined`/`null` and
`NaN` yield all-null fields; a string yields the clamped
`percentNumber / 100` when the percent regular expression matched and a
null `hpPercent` otherwise; a number at most 1 is clamped as a fraction,
a number above 1 is divided by 100 and clamped. -/
def parseHpValue : HpValueInput → HpInfo
  | HpValueInput.nullish => ⟨none, none, none⟩
  | HpValueInput.strVal m => ⟨some m, none, m.map (fun p => clamp01 (p / 100))⟩
  | HpValueInput.nanVal => ⟨none, none, none⟩
  | HpValueInput.numVal x =>
      ⟨none, some x, some (if x ≤ 1 then clamp01 x else clamp01 (x / 100))⟩

/-- The fainted flag computed in `extractBattlePreviewFromLog`:
`hpInfo.hpPercent !== null && hpInfo.hpPercent <= 0`. -/
def isFainted (info : HpInfo) : Bool :=
  match info.hpPercent with
  | some p => decide (p ≤ 0)
  | none => false

/-- Modelled from the spec: the BattleState invariant "a Pokémon with HP
fraction 0 is fainted and contributes no legal actions" — the legal
action set offered for a slot; the core legality enumerator
(battle-engine adapter) is not under the snapshot's sources. -/
def slotLegalActions (fainted : Bool) (movePool : List CandidateAction) :
    List CandidateAction :=
  if fainted then [] else movePool

/-- C7: every HP fraction produced by `parseHpValue` — from a percent
string, a raw value above 1, or a fraction — lies in [0, 1]; and a
Pokémon whose HP fraction is 0 is marked fainted and contributes no
legal actions. -/
theorem parseHpValue_fraction_in_unit_interval (v : HpValueInput) (p : ℚ)
    (h : (parseHpValue v).hpPercent = some p) :
    0 ≤ p ∧ p ≤ 1 ∧
      (p ≤ 0 → isFainted (parseHpValue v) = true ∧
        ∀ movePool, slotLegalActions (isFainted (parseHpValue v)) movePool = []) := by
  have hclamp : ∀ x : ℚ, 0 ≤ clamp01 x ∧ clamp01 x ≤ 1 := by
    intro x
    exact ⟨le_min (le_max_right x 0) zero_le_one, min_le_right _ _⟩
  have hbounds : 0 ≤ p ∧ p ≤ 1 := by
    cases v with
    | nullish => cases h
    | nanVal => cases h
    | strVal m =>
        cases m with
        | none => cases h
        | some q =>
            simp only [parseHpValue, Option.map_some] at h
            cases h
            exact hclamp _
    | numVal x =>
        simp only [parseHpValue, Option.some_inj] at h
        cases h
        by_cases hx : x ≤ 1
        · rw [if_pos hx]
          exact hclamp _
        · rw [if_neg hx]
          exact hclamp _
  refine ⟨hbounds.1, hbounds.2, fun hp0 => ?_⟩
  have hfaint : isFainted (parseHpValue v) = true := by
    rw [isFainted, h]
    exact decide_eq_true hp0
  exact ⟨hfaint, fun movePool => by rw [slotLegalActions, hfaint, if_pos rfl]⟩

/-- Witness for C7 at the raw value 0 (a fainted Pokémon). -/
theorem parseHpValue_fraction_witness :
    0 ≤ (0 : ℚ) ∧ (0 : ℚ) ≤ 1 ∧
      ((0 : ℚ) ≤ 0 → isFainted (parseHpValue (HpValueInput.numVal 0)) = true ∧
        ∀ movePool,
          slotLegalActions (isFainted (parseHpValue (HpValueInput.numVal 0))) movePool =
            []) :=
  parseHpValue_fraction_in_unit_interval (HpValueInput.numVal 0) 0 (by norm_num [parseHpValue, clamp01])

/-- A thrown JavaScript error as the bridge's line handler sees it: a
message and a stack trace. -/
structure JsError where
  message : String
  stack : String
deriving DecidableEq

/-- The successful payload assembled by `performCalculation` in
`smogon-calc-bridge/calc_server.js` (damage rolls plus the descriptive
fields; the numeric work is done by the external `@smogon/calc`
library). -/
structure CalcSuccess where
  damage : List ℕ
  description : String
deriving DecidableEq

/-- The JSON object written to stdout for one input line: on success
`success: true` with the damage payload, on any error `success: false`
with the error message and stack and no damage fields. -/
structure CalcReply where
  success : Bool
  error : Option String
  stack : Option String
  damage : Option (List ℕ)
deriving DecidableEq

/-- The `rl.on('line', ...)` handler of `calc_server.js`: the whole body
is wrapped in try/catch, so an outcome of parsing-plus-calculation
(anything thrown while processing the line becomes `Except.error`) is
turned into exactly one JSON reply — never a crash, never a fabricated
damage result. -/
def handleLine (outcome : Except JsError CalcSuccess) : CalcReply :=
  match outcome with
  | Except.ok r => ⟨true, none, none, some r.damage⟩
  | Except.error e => ⟨false, some e.message, some e.stack, none⟩

/-- The bridge's read loop: one reply per input line, each produced by
`handleLine`; an error on one line does not stop the loop. -/
def serverLoop (lines : List (Except JsError CalcSuccess)) : List CalcReply :=
  lines.map handleLine

/-- Modelled from the spec: the orchestrator's aggregation of the K
determinization search results (spec §4.8/§7 OracleFailure): an oracle
failure in any determinization is propagated as an explicit failure of
the whole turn decision, never replaced by a fabricated value. -/
def aggregateTurnResults : List (Except JsError ℚ) → Except JsError (List ℚ)
  | [] => Except.ok []
  | r :: rs =>
      match r with
      | Except.error e => Except.error e
      | Except.ok v => (aggregateTurnResults rs).map (fun vs => v :: vs)

/-- C8: the bridge answers every input line (the loop never dies), any
error while processing a line yields a reply with `success = false`
carrying that error's message and no damage result, a successful line
yields `success = true`, and an oracle failure inside the turn decision
propagates as an explicit failure of the whole decision. -/
theorem calcServer_error_reply (lines : List (Except JsError CalcSuccess)) :
    (serverLoop lines).length = lines.length ∧
    (∀ e : JsError,
      (handleLine (Except.error e)).success = false ∧
      (handleLine (Except.error e)).error = some e.message ∧
      (handleLine (Except.error e)).damage = none) ∧
    (∀ r : CalcSuccess, (handleLine (Except.ok r)).success = true) ∧
    (∀ (pre : List ℚ) (post : List (Except JsError ℚ)) (e : JsError),
      aggregateTurnResults (pre.map Except.ok ++ Except.error e :: post) =
        Except.error e) := by
  refine ⟨List.length_map lines handleLine, fun e => ⟨rfl, rfl, rfl⟩,
    fun r => rfl, fun pre post e => ?_⟩
  induction pre with
  | nil => rfl
  | cons v vs ih =>
      simp only [List.map_cons, List.cons_append, aggregateTurnResults]
      show Except.map (fun l => v :: l)
          (aggregateTurnResults (vs.map Except.ok ++ Except.error e :: post)) =
        Except.error e
      rw [ih]
      rfl

/-- A partially specified stat spread as it arrives in the bridge's JSON
input: any of the six stats may be absent. The field `def_` stands for
the source's `def` key. -/
structure StatSpreadInput where
  hp : Option ℕ
  atk : Option ℕ
  def_ : Option ℕ
  spa : Option ℕ
  spd : Option ℕ
  spe : Option ℕ
deriving DecidableEq

/-- A fully specified stat spread. -/
structure StatSpread where
  hp : ℕ
  atk : ℕ
  def_ : ℕ
  spa : ℕ
  spd : ℕ
  spe : ℕ
deriving DecidableEq

/-- The spread with every stat absent (`{}` or an absent object in the
JSON input — spreading `undefined` contributes no keys). -/
def emptySpreadInput : StatSpreadInput := ⟨none, none, none, none, none, none⟩

/-- The object-spread merge `{ hp: d, atk: d, def: d, spa: d, spd: d,
spe: d, ...spread }` used for `fullEVs` (d = 0) and `fullIVs` (d = 31)
in `buildPokemon`: a stat present in the input overrides the default. -/
def fillSpread (d : ℕ) (spread : Option StatSpreadInput) : StatSpread :=
  ⟨(spread.getD emptySpreadInput).hp.getD d,
    (spread.getD emptySpreadInput).atk.getD d,
    (spread.getD emptySpreadInput).def_.getD d,
    (spread.getD emptySpreadInput).spa.getD d,
    (spread.getD emptySpreadInput).spd.getD d,
    (spread.getD emptySpreadInput).spe.getD d⟩

/-- JavaScript `x || d` on an optional number: absent, or present but
zero (falsy), gives the default. -/
def jsOrNat (v : Option ℕ) (d : ℕ) : ℕ :=
  match v with
  | some n => if n = 0 then d else n
  | none => d

/-- JavaScript `s || d` on an optional string: absent or empty (falsy)
gives the default. -/
def jsOrString (v : Option String) (d : String) : String :=
  match v with
  | some s => if s = "" then d else s
  | none => d

/-- JavaScript `s || undefined` on an optional string. -/
def jsOrUndefined (v : Option String) : Option String :=
  match v with
  | some s => if s = "" then none else some s
  | none => none

/-- One Pokémon description from the bridge's JSON input line. -/
structure PokemonInput where
  name : String
  nature : Option String
  evs : Option StatSpreadInput
  ivs : Option StatSpreadInput
  item : Option String
  ability : Option String
  level : Option ℕ
  teraType : Option String
deriving DecidableEq

/-- The parameters `buildPokemon` passes to the `Pokemon` constructor. -/
structure PokemonParams where
  name : String
  level : ℕ
  nature : String
  evs : StatSpread
  ivs : StatSpread
  item : Option String
  ability : Option String
  teraType : Option String
deriving DecidableEq

/-- `buildPokemon` from `smogon-calc-bridge/calc_server.js`: EVs default
to 0 and IVs to 31 per stat via object spread; `level || 50`,
`nature || 'Serious'`, and `item/ability/teraType || undefined`. -/
def buildPokemon (data : PokemonInput) : PokemonParams :=
  ⟨data.name, jsOrNat data.level 50, jsOrString data.nature "Serious",
    fillSpread 0 data.evs, fillSpread 31 data.ivs,
    jsOrUndefined data.item, jsOrUndefined data.ability,
    jsOrUndefined data.teraType⟩

/-- C9: `buildPokemon` fills every absent EV with 0 and every absent IV
with 31 (per stat), defaults the level to 50 and the nature to
`Serious` when absent, and a request that explicitly supplies exactly
those default values produces identical Pokémon parameters to one that
omits them. -/
theorem buildPokemon_defaults (data : PokemonInput) (e i : StatSpreadInput) :
    buildPokemon
        ⟨data.name, some "Serious",
          some ⟨some 0, some 0, some 0, some 0, some 0, some 0⟩,
          some ⟨some 31, some 31, some 31, some 31, some 31, some 31⟩,
          data.item, data.ability, some 50, data.teraType⟩ =
      buildPokemon
        ⟨data.name, none, none, none, data.item, data.ability, none,
          data.teraType⟩ ∧
    (buildPokemon
        ⟨data.name, none, none, none, data.item, data.ability, none,
          data.teraType⟩).level = 50 ∧
    (buildPokemon
        ⟨data.name, none, none, none, data.item, data.ability, none,
          data.teraType⟩).nature = "Serious" ∧
    (buildPokemon
        ⟨data.name, none, none, none, data.item, data.ability, none,
          data.teraType⟩).evs = ⟨0, 0, 0, 0, 0, 0⟩ ∧
    (buildPokemon
        ⟨data.name, none, none, none, data.item, data.ability, none,
          data.teraType⟩).ivs = ⟨31, 31, 31, 31, 31, 31⟩ ∧
    (buildPokemon
        ⟨data.name, data.nature, some e, some i, data.item, data.ability,
          data.level, data.teraType⟩).evs =
      ⟨e.hp.getD 0, e.atk.getD 0, e.def_.getD 0, e.spa.getD 0, e.spd.getD 0,
        e.spe.getD 0⟩ ∧
    (buildPokemon
        ⟨data.name, data.nature, some e, some i, data.item, data.ability,
          data.level, data.teraType⟩).ivs =
      ⟨i.hp.getD 31, i.atk.getD 31, i.def_.getD 31, i.spa.getD 31,
        i.spd.getD 31, i.spe.getD 31⟩ := by
  refine ⟨?_, rfl, rfl, rfl, rfl, rfl, rfl⟩
  simp only [buildPokemon, jsOrNat, jsOrString, fillSpread, emptySpreadInput]
  rfl

/-- One point of the win-rate chart kept by `useGameState`. -/
structure WinRatePoint where
  turn : ℤ
  winRate : ℚ
deriving DecidableEq

/-- One processed `game_update` websocket message (the `turn` and
`winRate` fields of the parsed `GameState` payload). -/
structure GameUpdate where
  turn : ℤ
  winRate : ℚ
deriving DecidableEq

/-- The ordering used by the history's sort comparator
`(a, b) => a.turn - b.turn` (ascending turn). -/
def byTurnLE (a b : WinRatePoint) : Prop := a.turn ≤ b.turn

instance : DecidableRel byTurnLE :=
  fun a b => inferInstanceAs (Decidable (a.turn ≤ b.turn))

instance : IsTotal WinRatePoint byTurnLE :=
  ⟨fun a b => le_total a.turn b.turn⟩

instance : IsTrans WinRatePoint byTurnLE :=
  ⟨fun _ _ _ h1 h2 => le_trans h1 h2⟩

/-- The `findIndex`-and-replace-in-place step of the `setWinRateHistory`
updater: replace the first entry whose turn equals the message's turn by
`{ turn: data.turn, winRate: data.winRate }`, or report `none` when no
entry has that turn (`findIndex` returned -1). -/
def replaceFirstByTurn (data : GameUpdate) :
    List WinRatePoint → Option (List WinRatePoint)
  | [] => none
  | p :: rest =>
      if p.turn = data.turn then some (⟨data.turn, data.winRate⟩ :: rest)
      else (replaceFirstByTurn data rest).map (fun r => p :: r)

/-- The `ws.onmessage` history updater of `useGameState` for one
`game_update` message: if an entry with the message's turn exists it is
replaced in place; otherwise the new point is appended and the list
re-sorted ascending by turn. -/
def applyGameUpdate (prev : List WinRatePoint) (data : GameUpdate) :
    List WinRatePoint :=
  match replaceFirstByTurn data prev with
  | some updated => updated
  | none =>
      List.insertionSort byTurnLE (prev ++ [(⟨data.turn, data.winRate⟩ : WinRatePoint)])

/-- The history after a sequence of processed `game_update` messages,
starting from the initial empty state. -/
def winRateHistoryAfter (msgs : List GameUpdate) : List WinRatePoint :=
  msgs.foldl applyGameUpdate []

/-- Replacement never changes the sequence of turns. -/
theorem replaceFirstByTurn_map_turn (data : GameUpdate) :
    ∀ (l updated : List WinRatePoint), replaceFirstByTurn data l = some updated →
      updated.map WinRatePoint.turn = l.map WinRatePoint.turn := by
  intro l
  induction l with
  | nil => intro updated h; cases h
  | cons p rest ih =>
      intro updated h
      rw [replaceFirstByTurn] at h
      by_cases hp : p.turn = data.turn
      · rw [if_pos hp] at h
        cases h
        simp [hp]
      · rw [if_neg hp] at h
        rcases hrec : replaceFirstByTurn data rest with _ | r
        · rw [hrec] at h
          cases h
        · rw [hrec] at h
          cases h
          simp [ih r hrec]

/-- When replacement reports `none`, no entry has the message's turn. -/
theorem replaceFirstByTurn_none (data : GameUpdate) :
    ∀ l : List WinRatePoint, replaceFirstByTurn data l = none →
      ∀ p ∈ l, p.turn ≠ data.turn := by
  intro l
  induction l with
  | nil => intro _ p hp; cases hp
  | cons q rest ih =>
      intro h p hp
      rw [replaceFirstByTurn] at h
      by_cases hq : q.turn = data.turn
      · rw [if_pos hq] at h
        cases h
      · rw [if_neg hq] at h
        rw [List.mem_cons] at hp
        rcases hp with rfl | hp
        · exact hq
        · rcases hrec : replaceFirstByTurn data rest with _ | r
          · exact ih hrec p hp
          · rw [hrec] at h
            simp at h

/-- Conjunction of two pairwise facts over the same list. -/
theorem pairwiseAnd {α : Type} {R S : α → α → Prop} :
    ∀ {l : List α}, l.Pairwise R → l.Pairwise S →
      l.Pairwise (fun a b => R a b ∧ S a b) := by
  intro l
  induction l with
  | nil => intro _ _; exact List.Pairwise.nil
  | cons a t ih =>
      intro hR hS
      rw [List.pairwise_cons] at hR hS ⊢
      exact ⟨fun b hb => ⟨hR.1 b hb, hS.1 b hb⟩, ih hR.2 hS.2⟩

/-- One `game_update` step preserves strict ascending order of turns. -/
theorem applyGameUpdate_pairwise (prev : List WinRatePoint) (data : GameUpdate)
    (h : prev.Pairwise (fun a b => a.turn < b.turn)) :
    (applyGameUpdate prev data).Pairwise (fun a b => a.turn < b.turn) := by
  rcases hr : replaceFirstByTurn data prev with _ | updated
  · rw [applyGameUpdate, hr]
    have hsorted : (List.insertionSort byTurnLE
        (prev ++ [(⟨data.turn, data.winRate⟩ : WinRatePoint)])).Pairwise byTurnLE :=
      List.sorted_insertionSort byTurnLE _
    have hperm : List.Perm
        ((List.insertionSort byTurnLE
          (prev ++ [(⟨data.turn, data.winRate⟩ : WinRatePoint)])).map WinRatePoint.turn)
        ((prev ++ [(⟨data.turn, data.winRate⟩ : WinRatePoint)]).map WinRatePoint.turn) :=
      (List.perm_insertionSort byTurnLE _).map WinRatePoint.turn
    have hnodup_prev : (prev.map WinRatePoint.turn).Nodup :=
      List.pairwise_map.mpr (h.imp (fun hab => ne_of_lt hab))
    have hfresh : data.turn ∉ prev.map WinRatePoint.turn := by
      intro hmem
      rcases List.mem_map.mp hmem with ⟨p, hp, hpt⟩
      exact replaceFirstByTurn_none data prev hr p hp hpt
    have hnodup : ((prev ++ [(⟨data.turn, data.winRate⟩ : WinRatePoint)]).map
        WinRatePoint.turn).Nodup := by
      rw [List.map_append]
      rw [List.nodup_append]
      refine ⟨hnodup_prev, List.nodup_singleton _, ?_⟩
      intro a ha hb
      rcases List.mem_singleton.mp hb with rfl
      exact hfresh ha
    have hnodupS : ((List.insertionSort byTurnLE
        (prev ++ [(⟨data.turn, data.winRate⟩ : WinRatePoint)])).map WinRatePoint.turn).Nodup :=
      hperm.nodup_iff.mpr hnodup
    have hne : (List.insertionSort byTurnLE
        (prev ++ [(⟨data.turn, data.winRate⟩ : WinRatePoint)])).Pairwise
        (fun a b => a.turn ≠ b.turn) :=
      List.pairwise_map.mp hnodupS
    exact (pairwiseAnd hsorted hne).imp
      (fun hab => lt_of_le_of_ne hab.1 hab.2)
  · rw [applyGameUpdate, hr]
    have hmap := replaceFirstByTurn_map_turn data prev updated hr
    have hmp : (prev.map WinRatePoint.turn).Pairwise (fun a b => a < b) :=
      List.pairwise_map.mpr h
    rw [← hmap] at hmp
    exact List.pairwise_map.mp hmp

/-- C10: after every processed `game_update` message sequence, the
win-rate history is strictly ascending in turn (so it is sorted by turn)
and contains at most one entry per turn number. -/
theorem winRateHistory_sorted_one_per_turn (msgs : List GameUpdate) :
    (winRateHistoryAfter msgs).Pairwise (fun a b => a.turn < b.turn) ∧
    ((winRateHistoryAfter msgs).map WinRatePoint.turn).Nodup := by
  have key : ∀ (ms : List GameUpdate) (prev : List WinRatePoint),
      prev.Pairwise (fun a b => a.turn < b.turn) →
        (ms.foldl applyGameUpdate prev).Pairwise
          (fun a b => a.turn < b.turn) := by
    intro ms
    induction ms with
    | nil => intro prev hp; exact hp
    | cons m rest ih =>
        intro prev hp
        exact ih (applyGameUpdate prev m) (applyGameUpdate_pairwise prev m hp)
  have hmain : (winRateHistoryAfter msgs).Pairwise
      (fun a b => a.turn < b.turn) :=
    key msgs [] List.Pairwise.nil
  exact ⟨hmain, List.pairwise_map.mpr (hmain.imp (fun hab => ne_of_lt hab))⟩
